import Mathlib

/-!
# Verification of the `winit-async` core (`src/lib.rs`)

A shallow embedding of the repository's bridging logic:

* `WEvent`, `toStatic` — the host events handled by the driver
  (`winit::event::Event<'_, ()>` and its `to_static` conversion);
* `Channel`, `trySend`, `pollNext` — the unbounded single-producer
  single-consumer channel (`async_channel::unbounded`) backing `Events`;
* `LoopState`, `runStepT`, `runEvents` — one invocation of the closure
  passed to `event_loop.run` in `run` (lib.rs lines 48–92), together with
  an instrumentation trace recording the value of `will_poll` and
  `control_flow` at the labelled program points of the callback;
* `WakerState`, `wakeByRef` — `ProxyWaker::wake_by_ref` (lib.rs 106–123)
  as a sequential function of the shared state it reads;
* `WakeGState`, `threadStep`, `runSched` — an interleaving semantics for
  N concurrent invocations of `wake_by_ref`, each thread advancing
  through the atomic actions of the source (load of `will_poll`,
  `try_lock`, `send_event`, unlock) under an arbitrary schedule.
-/

namespace WinitAsync

/-- Host events delivered by the event loop, `Event<'static, ()>` collapsed
to the cases the driver distinguishes: `Event::UserEvent(())` (the internal
wake marker), the `ScaleFactorChanged` window event (whose `to_static`
conversion fails because of its borrowed `new_inner_size` field — see the
TODO comment at lib.rs 70–71), and every other event, carried by a tag. -/
inductive WEvent where
  | userEvent
  | scaleFactorChanged
  | other (tag : Nat)
deriving DecidableEq, Repr

/-- `Event::to_static`: succeeds (returning the same event, owned) for every
event except `ScaleFactorChanged`, whose borrowed resize handle cannot be
made `'static` (winit's `to_static` returns `None` there; the source's TODO
comment at lib.rs 70–71 records exactly this). -/
def toStatic : WEvent → Option WEvent
  | .scaleFactorChanged => none
  | e => some e

/-- The unbounded SPSC channel created by `async_channel::unbounded()`:
a FIFO buffer plus the "receiver dropped" flag. -/
structure Channel where
  buf : List WEvent
  isClosed : Bool
deriving DecidableEq, Repr

/-- Result of `Sender::try_send` (`async_channel::TrySendError` cases plus
success). -/
inductive TrySendResult where
  | ok
  | closed
  | full
deriving DecidableEq, Repr

/-- `tx.try_send(e)` on an unbounded channel: appends to the back of the
FIFO unless the receiver is gone; it never blocks and never reports
`full`. -/
def trySend (c : Channel) (e : WEvent) : TrySendResult × Channel :=
  if c.isClosed then (.closed, c)
  else (.ok, ⟨c.buf ++ [e], c.isClosed⟩)

/-- The driver's handling of the `try_send` result (lib.rs 72–78):
`Ok` and `Closed(_)` are ignored, `Full(_)` hits `unreachable!` — modelled
as `none`, i.e. an abort. -/
def handleTrySend : TrySendResult → Option Unit
  | .ok => some ()
  | .closed => some ()
  | .full => none

/-- `Events::poll_next` = `Receiver::poll_next`: pops the front of the
FIFO; `none` when the buffer is empty (the consumer would suspend). -/
def pollNext (c : Channel) : Option WEvent × Channel :=
  match c.buf with
  | [] => (none, c)
  | e :: rest => (some e, ⟨rest, c.isClosed⟩)

/-- `k` successive pulls by the consumer, collected in order. -/
def pullN : Nat → Channel → List WEvent × Channel
  | 0, c => ([], c)
  | k + 1, c =>
    match pollNext c with
    | (none, c') => ([], c')
    | (some e, c') =>
      let r := pullN k c'
      (e :: r.1, r.2)

/-- The driver's state tag: the `State<F, Fut>` enum of `run`
(lib.rs 34–38). The payloads (pending callback, future, sender) live in
the surrounding `LoopState`. -/
inductive DState where
  | init
  | running
  | done
deriving DecidableEq, Repr

/-- `winit::event_loop::ControlFlow`, restricted to the values the driver
reads or writes (`Poll` is the loop's default before the first write). -/
inductive CFlow where
  | poll
  | wait
  | exitLoop
deriving DecidableEq, Repr

/-- Labelled program points of one callback invocation, used by the
instrumentation trace: right after the two stores at entry (lib.rs 49–50),
right after the enqueue block (lib.rs 67–79), right before the task is
polled (after `will_poll.store(false)`, lib.rs 83–85), and after the
callback returns (the loop is idle until the next event). -/
inductive Phase where
  | received
  | enqueued
  | polling
  | returned
deriving DecidableEq, Repr

/-- One instrumentation sample: the phase plus the values of `will_poll`
and `control_flow` at that point. -/
structure TracePoint where
  phase : Phase
  willPoll : Bool
  controlFlow : CFlow
deriving DecidableEq, Repr

/-- A black-box model of the user future: at its `k`-th poll it pulls
`pulls k` events from the stream and returns `Ready` iff `ready k`.
Any behaviour of the opaque future corresponds to some oracle. -/
structure TaskOracle where
  pulls : Nat → Nat
  ready : Nat → Bool

/-- The state threaded through the closure of `event_loop.run`:
the `State` tag, the shared `will_poll` boolean, the channel (producer
side `tx` and consumer side `rx` of `Events`), the list of events the
consumer has pulled so far (in order), the loop's `control_flow` cell,
a poll counter, a counter of executions of the `Init` branch, and whether
the closure has panicked (`unwrap` / `unreachable!`). -/
structure LoopState where
  state : DState
  willPoll : Bool
  chan : Channel
  observed : List WEvent
  controlFlow : CFlow
  polls : Nat
  inits : Nat
  panicked : Bool
deriving DecidableEq, Repr

/-- The state before the first callback: `State::Init`, `will_poll`
freshly `false` (lib.rs 44), no channel yet (modelled empty), the loop's
default `ControlFlow::Poll`. -/
def loopInit : LoopState :=
  ⟨.init, false, ⟨[], false⟩, [], .poll, 0, 0, false⟩

/-- One invocation of the closure passed to `event_loop.run`
(lib.rs 48–92), instrumented with the trace of `(phase, will_poll,
control_flow)` samples. Mirrors the source line by line:
set `control_flow = Wait` and `will_poll = true`; run the `Init` branch if
in `Init`; return if `Done`; if the event is not `UserEvent(())`, enqueue
`event.to_static().unwrap()` (a failed conversion or a `Full` result
panics); set `will_poll = false`; poll the future; on `Ready` set
`control_flow = Exit` and move to `Done`. -/
def runStepT (t : TaskOracle) (σ : LoopState) (e : WEvent) :
    LoopState × List TracePoint :=
  if σ.panicked then (σ, []) else
  let σ1 : LoopState := { σ with controlFlow := .wait, willPoll := true }
  let p1 : TracePoint := ⟨.received, σ1.willPoll, σ1.controlFlow⟩
  let σ2 : LoopState :=
    if σ1.state = .init then
      { σ1 with state := .running, chan := ⟨[], false⟩, observed := [],
                inits := σ1.inits + 1 }
    else σ1
  if σ2.state = .done then (σ2, [p1]) else
  let enqRes : Option LoopState :=
    if e = .userEvent then some σ2 else
      match toStatic e with
      | none => none
      | some e2 =>
        match handleTrySend (trySend σ2.chan e2).1 with
        | none => none
        | some _ => some { σ2 with chan := (trySend σ2.chan e2).2 }
  match enqRes with
  | none => ({ σ2 with panicked := true }, [p1])
  | some σ3 =>
    let p2 : TracePoint := ⟨.enqueued, σ3.willPoll, σ3.controlFlow⟩
    let σ4 : LoopState := { σ3 with willPoll := false }
    let pr := pullN (t.pulls σ4.polls) σ4.chan
    let σ5 : LoopState := { σ4 with observed := σ4.observed ++ pr.1, chan := pr.2 }
    let p3 : TracePoint := ⟨.polling, σ5.willPoll, σ5.controlFlow⟩
    let σ6 : LoopState :=
      if t.ready σ5.polls then
        { σ5 with polls := σ5.polls + 1, controlFlow := .exitLoop, state := .done }
      else
        { σ5 with polls := σ5.polls + 1 }
    (σ6, [p1, p2, p3, ⟨.returned, σ6.willPoll, σ6.controlFlow⟩])

/-- The state after one callback. -/
def runStep (t : TaskOracle) (σ : LoopState) (e : WEvent) : LoopState :=
  (runStepT t σ e).1

/-- The instrumentation samples of one callback. -/
def stepTrace (t : TaskOracle) (σ : LoopState) (e : WEvent) : List TracePoint :=
  (runStepT t σ e).2

/-- The driver run over a whole sequence of host events. -/
def runEvents (t : TaskOracle) (es : List WEvent) (σ : LoopState) : LoopState :=
  es.foldl (runStep t) σ

/-- The shared state read by one call of `ProxyWaker::wake_by_ref`
(lib.rs 106–123): the `will_poll` boolean, whether the `Mutex` around the
`EventLoopProxy` is currently held by another caller, whether it is
poisoned, whether the event loop has shut down (`send_event` fails), and
how many synthetic `UserEvent(())`s have been injected. -/
structure WakerState where
  willPoll : Bool
  lockHeld : Bool
  poisoned : Bool
  loopClosed : Bool
  injected : Nat
deriving DecidableEq, Repr

/-- `ProxyWaker::wake_by_ref`: load `will_poll`; if set, return.
Otherwise `try_lock` the proxy: a held lock is `WouldBlock` (return),
an unheld poisoned lock panics (`none`), otherwise send a synthetic
event (the send silently fails if the loop is closed). The returned
`Bool` records whether the guard was acquired. -/
def wakeByRef (s : WakerState) : Option (WakerState × Bool) :=
  if s.willPoll then some (s, false)
  else if s.lockHeld then some (s, false)
  else if s.poisoned then none
  else
    some ({ s with injected := if s.loopClosed then s.injected else s.injected + 1 },
          true)

/-- `ProxyWaker::wake` just delegates to `wake_by_ref` (lib.rs 102–104). -/
def wake (s : WakerState) : Option (WakerState × Bool) := wakeByRef s

/-- Program counter of one thread running `wake_by_ref` concurrently:
about to load `will_poll`; loaded it (`false`) and about to `try_lock`;
holding the lock, about to `send_event`; sent, about to release; returned
without sending; returned after sending. -/
inductive TStat where
  | atStart
  | atLock
  | holding
  | sentHolding
  | retNoop
  | retSent
deriving DecidableEq, Repr

/-- Global state of N concurrent `wake_by_ref` calls: per-thread program
counters, the current holder of the proxy mutex, the shared `will_poll`
and loop-closed flags, and the number of injected synthetic events. -/
structure WakeGState where
  stats : List TStat
  owner : Option Nat
  willPoll : Bool
  loopClosed : Bool
  injected : Nat
deriving DecidableEq, Repr

/-- Update thread `i`'s program counter. -/
def setStat (g : WakeGState) (i : Nat) (st : TStat) : WakeGState :=
  { g with stats := g.stats.set i st }

/-- One atomic action of thread `i`, following `wake_by_ref`:
the load of `will_poll`, the `try_lock` (acquire or `WouldBlock`),
the `send_event`, and the release of the guard. Threads that have
returned, and out-of-range indices, do nothing. -/
def threadStep (g : WakeGState) (i : Nat) : WakeGState :=
  match g.stats[i]? with
  | none => g
  | some .atStart =>
      if g.willPoll then setStat g i .retNoop else setStat g i .atLock
  | some .atLock =>
      match g.owner with
      | some _ => setStat g i .retNoop
      | none => { setStat g i .holding with owner := some i }
  | some .holding =>
      { setStat g i .sentHolding with
        injected := if g.loopClosed then g.injected else g.injected + 1 }
  | some .sentHolding => { setStat g i .retSent with owner := none }
  | some .retNoop => g
  | some .retSent => g

/-- Run a schedule: a list of thread indices, each advancing that thread
by one atomic action. Every interleaving of the N calls is some
schedule. -/
def runSched (sched : List Nat) (g : WakeGState) : WakeGState :=
  sched.foldl threadStep g

/-- Initial global state for `n` concurrent `wake_by_ref` calls made while
the loop thread is not about to poll: all threads at the start, the mutex
free, `will_poll` false, the loop alive, nothing injected yet. -/
def wakeInit (n : Nat) : WakeGState :=
  ⟨List.replicate n .atStart, none, false, false, 0⟩

/-- A thread has returned from `wake_by_ref`. -/
def tdone : TStat → Bool
  | .retNoop => true
  | .retSent => true
  | _ => false

/-- Every thread has returned. -/
def allDone (g : WakeGState) : Bool := g.stats.all tdone

/-- A task oracle that pulls nothing and never completes. -/
def oracle0 : TaskOracle := ⟨fun _ => 0, fun _ => false⟩

/-- A task oracle that completes on its first poll. -/
def oracleReady : TaskOracle := ⟨fun _ => 0, fun _ => true⟩

/-- A concrete mid-run `Running` state. -/
def runningState0 : LoopState :=
  ⟨.running, false, ⟨[], false⟩, [], .wait, 0, 1, false⟩

/-- A concrete `Done` state in which the loop-exit request is pending. -/
def doneState0 : LoopState :=
  ⟨.done, false, ⟨[], false⟩, [], .exitLoop, 3, 1, false⟩

/-- The tail of a `Running`-state callback, from just after the enqueue
block: `will_poll := false`, the task pulls from channel `c`, the poll
result decides `Done`/`Running` and `Exit`/`Wait`. -/
def stepPoll (t : TaskOracle) (σ : LoopState) (c : Channel) :
    LoopState × List TracePoint :=
  let pr := pullN (t.pulls σ.polls) c
  let fin := t.ready σ.polls
  ({ σ with state := if fin then .done else .running,
            willPoll := false,
            chan := pr.2,
            observed := σ.observed ++ pr.1,
            controlFlow := if fin then .exitLoop else .wait,
            polls := σ.polls + 1 },
   [⟨.received, true, .wait⟩, ⟨.enqueued, true, .wait⟩, ⟨.polling, false, .wait⟩,
    ⟨.returned, false, if fin then .exitLoop else .wait⟩])

/-- The events a step appends to the stream: nothing for the wake marker,
the event itself otherwise. -/
def nonMarker (es : List WEvent) : List WEvent :=
  es.filter (fun e => e != .userEvent)

/-- Occurrences of one program-counter value among the threads. -/
def countStat (c : TStat) : List TStat → Nat
  | [] => 0
  | x :: xs => (if x = c then 1 else 0) + countStat c xs

/-- Reachability invariant of the `wakeInit` scenario (loop thread not
about to poll, loop alive): the injection count equals the number of
threads past their `send_event`; the mutex owner, if any, is a thread
between acquire and release; and once some thread has returned empty
handed (`WouldBlock`), some thread is at or past its `send_event`. -/
def WInv (g : WakeGState) : Prop :=
  g.willPoll = false ∧
  g.loopClosed = false ∧
  g.injected = countStat .sentHolding g.stats + countStat .retSent g.stats ∧
  (∀ j, g.owner = some j →
    ∃ st, g.stats[j]? = some st ∧ (st = .holding ∨ st = .sentHolding)) ∧
  (.retNoop ∈ g.stats →
    1 ≤ countStat .holding g.stats + countStat .sentHolding g.stats +
        countStat .retSent g.stats)

/-! ## Basic lemmas about the embedding -/

/-- `k` pulls take the first `k` buffered events, leaving the rest. -/
theorem pullN_spec (k : Nat) (c : Channel) :
    pullN k c = (c.buf.take k, ⟨c.buf.drop k, c.isClosed⟩) := by
  induction k generalizing c with
  | zero => rfl
  | succ k ih =>
    cases c with
    | mk buf closed =>
      cases buf with
      | nil => rfl
      | cons e rest => simp [pullN, pollNext, ih]

/-- A panicked closure does nothing further. -/
theorem runStepT_panicked (t : TaskOracle) (σ : LoopState) (e : WEvent)
    (h : σ.panicked = true) : runStepT t σ e = (σ, []) := by
  simp [runStepT, h]

/-- In `Done` state the callback only rewrites `control_flow` and
`will_poll` and returns. -/
theorem runStepT_done (t : TaskOracle) (σ : LoopState) (e : WEvent)
    (hp : σ.panicked = false) (hs : σ.state = .done) :
    runStepT t σ e =
      ({ σ with controlFlow := .wait, willPoll := true },
       [⟨.received, true, .wait⟩]) := by
  simp [runStepT, hp, hs]

/-- Characterization of a `Running`-state callback: the wake marker skips
the enqueue; a `ScaleFactorChanged` event panics on the failed `to_static`
conversion; any other event is appended to the FIFO unless the consumer is
gone, and then the task is polled. -/
theorem runStepT_running (t : TaskOracle) (σ : LoopState) (e : WEvent)
    (hp : σ.panicked = false) (hs : σ.state = .running) :
    runStepT t σ e =
      if e = .userEvent then
        stepPoll t σ σ.chan
      else
        match toStatic e with
        | none =>
            ({ σ with controlFlow := .wait, willPoll := true, panicked := true },
             [⟨.received, true, .wait⟩])
        | some e2 =>
            if σ.chan.isClosed then stepPoll t σ σ.chan
            else stepPoll t σ ⟨σ.chan.buf ++ [e2], false⟩ := by
  cases e with
  | userEvent =>
    by_cases hr : t.ready σ.polls = true <;>
      simp [runStepT, stepPoll, hp, hs, hr]
  | scaleFactorChanged => simp [runStepT, toStatic, hp, hs]
  | other tag =>
    by_cases hc : σ.chan.isClosed = true <;>
      [skip; simp only [Bool.not_eq_true] at hc] <;>
    by_cases hr : t.ready σ.polls = true <;>
      simp [runStepT, stepPoll, toStatic, trySend, handleTrySend, hp, hs, hc, hr]

/-- `to_static` is the identity whenever it succeeds. -/
theorem toStatic_eq_some (e : WEvent) (h : toStatic e ≠ none) :
    toStatic e = some e := by
  cases e <;> simp [toStatic] at h ⊢

/-- The `Init` branch replaces the state with a fresh `Running` state (new
channel, initializer consumed) and then continues exactly like a callback
arriving in that `Running` state. -/
theorem runStepT_init (t : TaskOracle) (σ : LoopState) (e : WEvent)
    (hp : σ.panicked = false) (hs : σ.state = .init) :
    runStepT t σ e =
      runStepT t
        { σ with state := .running, chan := ⟨[], false⟩, observed := [],
                 inits := σ.inits + 1, controlFlow := .wait, willPoll := true } e := by
  simp [runStepT, hp, hs]

theorem runEvents_nil (t : TaskOracle) (σ : LoopState) :
    runEvents t [] σ = σ := rfl

theorem runEvents_cons (t : TaskOracle) (e : WEvent) (es : List WEvent)
    (σ : LoopState) :
    runEvents t (e :: es) σ = runEvents t es (runStep t σ e) := rfl

theorem nonMarker_nil : nonMarker [] = [] := rfl

theorem nonMarker_cons (e : WEvent) (es : List WEvent) :
    nonMarker (e :: es) =
      if e = .userEvent then nonMarker es else e :: nonMarker es := by
  by_cases h : e = .userEvent <;> simp [nonMarker, List.filter_cons, h]

theorem userEvent_not_mem_nonMarker (es : List WEvent) :
    WEvent.userEvent ∉ nonMarker es := by
  intro h
  have := List.of_mem_filter h
  simp at this

/-- A `Running` step on which the task stays pending: the driver stays
`Running`, does not panic, keeps the consumer attached, appends exactly
the non-marker event to the stream (pulled part plus still-buffered part),
and runs the `Init` branch zero times. -/
theorem runStep_running_pending (t : TaskOracle) (σ : LoopState) (e : WEvent)
    (hp : σ.panicked = false) (hs : σ.state = .running)
    (hr : t.ready σ.polls = false) (hc : σ.chan.isClosed = false)
    (he : e = .userEvent ∨ toStatic e ≠ none) :
    (runStep t σ e).state = .running ∧
    (runStep t σ e).panicked = false ∧
    (runStep t σ e).chan.isClosed = false ∧
    (runStep t σ e).observed ++ (runStep t σ e).chan.buf =
      σ.observed ++ σ.chan.buf ++ nonMarker [e] ∧
    (runStep t σ e).inits = σ.inits := by
  rw [runStep, runStepT_running t σ e hp hs]
  by_cases hu : e = .userEvent
  · simp [hu, stepPoll, pullN_spec, hr, hp, hc, nonMarker, List.append_assoc]
  · have hsome : toStatic e = some e := toStatic_eq_some e (he.resolve_left hu)
    simp only [hu, if_false, hsome, hc, Bool.false_eq_true, if_false]
    simp [stepPoll, pullN_spec, hr, hp, nonMarker, hu, List.append_assoc]

/-- Any step away from `Init` leaves the initializer-execution count alone
and can never re-enter `Init`. -/
theorem runStep_of_ne_init (t : TaskOracle) (σ : LoopState) (e : WEvent)
    (hs : σ.state ≠ .init) :
    (runStep t σ e).inits = σ.inits ∧ (runStep t σ e).state ≠ .init := by
  by_cases hp : σ.panicked = true
  · simp [runStep, runStepT_panicked t σ e hp, hs]
  · simp only [Bool.not_eq_true] at hp
    cases hd : σ.state with
    | init => exact absurd hd hs
    | done => simp [runStep, runStepT_done t σ e hp hd, hs]
    | running =>
      rw [runStep, runStepT_running t σ e hp hd]
      by_cases hu : e = .userEvent
      · by_cases hr : t.ready σ.polls = true <;> simp [hu, stepPoll, hr]
      · cases ht : toStatic e with
        | none => simp [hu, ht, hs]
        | some e2 =>
          by_cases hc : σ.chan.isClosed = true <;>
            by_cases hr : t.ready σ.polls = true <;>
              simp [hu, ht, hc, hr, stepPoll]

/-- Away from `Init`, a whole run leaves the initializer count alone. -/
theorem runEvents_of_ne_init (t : TaskOracle) (es : List WEvent) (σ : LoopState)
    (hs : σ.state ≠ .init) :
    (runEvents t es σ).inits = σ.inits ∧ (runEvents t es σ).state ≠ .init := by
  induction es generalizing σ with
  | nil => exact ⟨rfl, hs⟩
  | cons e es ih =>
    rw [runEvents_cons]
    have h1 := runStep_of_ne_init t σ e hs
    have h2 := ih (runStep t σ e) h1.2
    exact ⟨h2.1.trans h1.1, h2.2⟩

/-- A `Done` driver ignores every further event: the channel, the stream,
the poll count and the state are all left untouched. -/
theorem runEvents_done (t : TaskOracle) (es : List WEvent) (σ : LoopState)
    (hp : σ.panicked = false) (hs : σ.state = .done) :
    (runEvents t es σ).state = .done ∧
    (runEvents t es σ).chan = σ.chan ∧
    (runEvents t es σ).polls = σ.polls ∧
    (runEvents t es σ).observed = σ.observed ∧
    (runEvents t es σ).panicked = false := by
  induction es generalizing σ with
  | nil => exact ⟨hs, rfl, rfl, rfl, hp⟩
  | cons e es ih =>
    rw [runEvents_cons]
    have hstep : runStep t σ e = { σ with controlFlow := .wait, willPoll := true } := by
      simp [runStep, runStepT_done t σ e hp hs]
    rw [hstep]
    exact ih _ hp hs

/-- Accumulator form of the FIFO property: over a pending run from a
healthy `Running` state, pulled-plus-buffered grows by exactly the
non-marker events, in order. -/
theorem runEvents_running_acc (t : TaskOracle) (es : List WEvent) (σ : LoopState)
    (hp : σ.panicked = false) (hs : σ.state = .running) (hc : σ.chan.isClosed = false)
    (hready : ∀ k, t.ready k = false)
    (hconv : ∀ e ∈ es, e = .userEvent ∨ toStatic e ≠ none) :
    (runEvents t es σ).observed ++ (runEvents t es σ).chan.buf =
      σ.observed ++ σ.chan.buf ++ nonMarker es := by
  induction es generalizing σ with
  | nil => simp [runEvents_nil, nonMarker]
  | cons e es ih =>
    rw [runEvents_cons]
    have hstep := runStep_running_pending t σ e hp hs (hready σ.polls) hc
      (hconv e (List.mem_cons_self e es))
    have hrest := ih (runStep t σ e) hstep.2.1 hstep.1 hstep.2.2.1
      (fun e' he' => hconv e' (List.mem_cons_of_mem e he'))
    rw [hrest, hstep.2.2.2.1, nonMarker_cons]
    by_cases hu : e = .userEvent <;> simp [hu, nonMarker, List.append_assoc]

/-- Every sample of the poll tail is one of five shapes. -/
theorem stepPoll_trace_mem (t : TaskOracle) (σ : LoopState) (c : Channel)
    (pt : TracePoint) (h : pt ∈ (stepPoll t σ c).2) :
    pt = ⟨.received, true, .wait⟩ ∨ pt = ⟨.enqueued, true, .wait⟩ ∨
    pt = ⟨.polling, false, .wait⟩ ∨ pt = ⟨.returned, false, .wait⟩ ∨
    pt = ⟨.returned, false, .exitLoop⟩ := by
  by_cases hr : t.ready σ.polls = true <;>
    simp [stepPoll, hr] at h <;>
    rcases h with h | h | h | h <;> simp [h]

/-- Every sample of a `Running`-state callback is one of five shapes. -/
theorem stepTrace_shapes_running (t : TaskOracle) (σ : LoopState) (e : WEvent)
    (pt : TracePoint) (hp : σ.panicked = false) (hs : σ.state = .running)
    (h : pt ∈ stepTrace t σ e) :
    pt = ⟨.received, true, .wait⟩ ∨ pt = ⟨.enqueued, true, .wait⟩ ∨
    pt = ⟨.polling, false, .wait⟩ ∨ pt = ⟨.returned, false, .wait⟩ ∨
    pt = ⟨.returned, false, .exitLoop⟩ := by
  rw [stepTrace, runStepT_running t σ e hp hs] at h
  by_cases hu : e = .userEvent
  · simp only [hu, if_pos] at h
    exact stepPoll_trace_mem t σ σ.chan pt h
  · simp only [hu, if_false] at h
    cases ht : toStatic e with
    | none => rw [ht] at h; simp at h; simp [h]
    | some e2 =>
      rw [ht] at h
      by_cases hc : σ.chan.isClosed = true
      · simp only [hc, if_pos] at h
        exact stepPoll_trace_mem t σ σ.chan pt h
      · simp only [Bool.not_eq_true] at hc
        simp only [hc, Bool.false_eq_true, if_false] at h
        exact stepPoll_trace_mem t σ _ pt h

/-- Every sample of any callback is one of five shapes. -/
theorem stepTrace_shapes (t : TaskOracle) (σ : LoopState) (e : WEvent)
    (pt : TracePoint) (h : pt ∈ stepTrace t σ e) :
    pt = ⟨.received, true, .wait⟩ ∨ pt = ⟨.enqueued, true, .wait⟩ ∨
    pt = ⟨.polling, false, .wait⟩ ∨ pt = ⟨.returned, false, .wait⟩ ∨
    pt = ⟨.returned, false, .exitLoop⟩ := by
  by_cases hp : σ.panicked = true
  · rw [stepTrace, runStepT_panicked t σ e hp] at h
    simp at h
  · simp only [Bool.not_eq_true] at hp
    cases hd : σ.state with
    | done =>
      rw [stepTrace, runStepT_done t σ e hp hd] at h
      simp at h
      simp [h]
    | running => exact stepTrace_shapes_running t σ e pt hp hd h
    | init =>
      rw [stepTrace, runStepT_init t σ e hp hd] at h
      refine stepTrace_shapes_running t _ e pt ?_ ?_ h
      · exact hp
      · rfl

/-- Polling the task from `Running` advances the poll counter by one,
whatever the event and whatever the oracle answers. -/
theorem runStep_user_polls (t : TaskOracle) (σ : LoopState)
    (hp : σ.panicked = false) (hs : σ.state = .running) :
    (runStep t σ .userEvent).polls = σ.polls + 1 := by
  rw [runStep, runStepT_running t σ .userEvent hp hs]
  by_cases hr : t.ready σ.polls = true <;> simp [stepPoll, hr]

/-! ## Claim theorems -/

/-- C1: for every sequence of host events delivered to the driver before
the task completes (each convertible to owned form), every non-wake-marker
event is enqueued, and what the `EventStream` consumer has pulled followed
by what is still buffered is exactly the non-marker events in delivery
order — FIFO, no loss, no reordering, no duplication; the wake marker
`UserEvent(())` itself never enters the queue. -/
theorem c1_event_fifo (t : TaskOracle) (es : List WEvent)
    (hready : ∀ k, t.ready k = false)
    (hconv : ∀ e ∈ es, e = .userEvent ∨ toStatic e ≠ none) :
    (runEvents t es loopInit).observed ++ (runEvents t es loopInit).chan.buf
      = nonMarker es ∧
    WEvent.userEvent ∉ (runEvents t es loopInit).chan.buf ∧
    WEvent.userEvent ∉ (runEvents t es loopInit).observed := by
  have hmain : (runEvents t es loopInit).observed ++
      (runEvents t es loopInit).chan.buf = nonMarker es := by
    cases es with
    | nil => rfl
    | cons e es' =>
      rw [runEvents_cons]
      have h0 : runStep t loopInit e =
          runStep t ⟨.running, true, ⟨[], false⟩, [], .wait, 0, 1, false⟩ e := by
        rw [runStep, runStep, runStepT_init t loopInit e rfl rfl]
        rfl
      have hstep := runStep_running_pending t
        ⟨.running, true, ⟨[], false⟩, [], .wait, 0, 1, false⟩ e rfl rfl
        (hready 0) rfl (hconv e (List.mem_cons_self e es'))
      rw [h0]
      rw [runEvents_running_acc t es' _ hstep.2.1 hstep.1 hstep.2.2.1
        hready (fun e' he' => hconv e' (List.mem_cons_of_mem e he'))]
      rw [hstep.2.2.2.1]
      rw [nonMarker_cons]
      by_cases hu : e = .userEvent <;>
        simp [hu, nonMarker_cons, nonMarker_nil]
  refine ⟨hmain, ?_, ?_⟩
  · intro h
    exact userEvent_not_mem_nonMarker es
      (hmain ▸ List.mem_append.mpr (Or.inr h))
  · intro h
    exact userEvent_not_mem_nonMarker es
      (hmain ▸ List.mem_append.mpr (Or.inl h))

/-- Witness for C1 at a concrete event sequence. -/
theorem c1_event_fifo_witness :
    (runEvents oracle0 [.other 1, .userEvent, .other 2] loopInit).observed ++
      (runEvents oracle0 [.other 1, .userEvent, .other 2] loopInit).chan.buf
      = nonMarker [.other 1, .userEvent, .other 2] ∧
    WEvent.userEvent ∉
      (runEvents oracle0 [.other 1, .userEvent, .other 2] loopInit).chan.buf ∧
    WEvent.userEvent ∉
      (runEvents oracle0 [.other 1, .userEvent, .other 2] loopInit).observed :=
  c1_event_fifo oracle0 [.other 1, .userEvent, .other 2]
    (fun _ => rfl) (by decide)

/-- C3: the user-supplied initializer runs exactly once, synchronously, on
the first callback (already after the very first step the `Init` branch
has executed once), and the driver can never be in `Init` again, so the
branch never executes a second time no matter how many callbacks follow. -/
theorem c3_init_once (t : TaskOracle) (es : List WEvent) (e : WEvent)
    (hne : es ≠ []) :
    (runStep t loopInit e).inits = 1 ∧
    (runStep t loopInit e).state ≠ .init ∧
    (runEvents t es loopInit).inits = 1 ∧
    (runEvents t es loopInit).state ≠ .init := by
  have hfirst : ∀ e' : WEvent, (runStep t loopInit e').inits = 1 ∧
      (runStep t loopInit e').state ≠ .init := by
    intro e'
    have h0 : runStep t loopInit e' =
        runStep t ⟨.running, true, ⟨[], false⟩, [], .wait, 0, 1, false⟩ e' := by
      rw [runStep, runStep, runStepT_init t loopInit e' rfl rfl]
      rfl
    rw [h0]
    exact runStep_of_ne_init t _ e' (by simp)
  refine ⟨(hfirst e).1, (hfirst e).2, ?_⟩
  cases es with
  | nil => exact absurd rfl hne
  | cons e0 es' =>
    rw [runEvents_cons]
    have h1 := hfirst e0
    have h2 := runEvents_of_ne_init t es' (runStep t loopInit e0) h1.2
    exact ⟨h2.1.trans h1.1, h2.2⟩

/-- Witness for C3 at a concrete run. -/
theorem c3_init_once_witness :
    (runStep oracle0 loopInit .userEvent).inits = 1 ∧
    (runStep oracle0 loopInit .userEvent).state ≠ .init ∧
    (runEvents oracle0 [.other 0, .other 1] loopInit).inits = 1 ∧
    (runEvents oracle0 [.other 0, .other 1] loopInit).state ≠ .init :=
  c3_init_once oracle0 [.other 0, .other 1] .userEvent (by decide)

/-- C4: when the polled task reports completion the driver moves to `Done`
and requests the loop-exit; and from `Done`, every further callback is a
no-op — the state stays `Done`, nothing is ever enqueued or pulled again
(the channel is untouched) and the task is never polled again. -/
theorem c4_done_terminal (t : TaskOracle) (σc σ : LoopState) (ec e : WEvent)
    (es : List WEvent)
    (hcs : σc.state = .running) (hcp : σc.panicked = false)
    (hcr : t.ready σc.polls = true) (hce : ec = .userEvent ∨ toStatic ec ≠ none)
    (hs : σ.state = .done) (hp : σ.panicked = false) :
    ((runStep t σc ec).state = .done ∧
     (runStep t σc ec).controlFlow = .exitLoop) ∧
    runStep t σ e = { σ with controlFlow := .wait, willPoll := true } ∧
    ((runEvents t es σ).state = .done ∧
     (runEvents t es σ).chan = σ.chan ∧
     (runEvents t es σ).polls = σ.polls) := by
  refine ⟨?_, ?_, ?_⟩
  · rw [runStep, runStepT_running t σc ec hcp hcs]
    by_cases hu : ec = .userEvent
    · simp [hu, stepPoll, hcr]
    · have hsome : toStatic ec = some ec := toStatic_eq_some ec (hce.resolve_left hu)
      by_cases hc : σc.chan.isClosed = true <;>
        simp [hu, hsome, hc, stepPoll, hcr]
  · simp [runStep, runStepT_done t σ e hp hs]
  · have h := runEvents_done t es σ hp hs
    exact ⟨h.1, h.2.1, h.2.2.1⟩

/-- Witness for C4 at concrete states. -/
theorem c4_done_terminal_witness :
    ((runStep oracleReady runningState0 .userEvent).state = .done ∧
     (runStep oracleReady runningState0 .userEvent).controlFlow = .exitLoop) ∧
    runStep oracleReady doneState0 (.other 0) =
      { doneState0 with controlFlow := .wait, willPoll := true } ∧
    ((runEvents oracleReady [.other 1, .userEvent] doneState0).state = .done ∧
     (runEvents oracleReady [.other 1, .userEvent] doneState0).chan = doneState0.chan ∧
     (runEvents oracleReady [.other 1, .userEvent] doneState0).polls = doneState0.polls) :=
  c4_done_terminal oracleReady runningState0 doneState0 .userEvent (.other 0)
    [.other 1, .userEvent] rfl rfl rfl (Or.inl rfl) rfl rfl

/-- C5, counterexample: the claim says `will_poll` is false *exactly*
while the poll executes and at no other time; but after the callback
returns (the loop idle until the next event) `will_poll` is still false,
as the sample at the `returned` program point shows. -/
theorem c5_aboutToPoll_cex :
    ¬ (∀ pt ∈ stepTrace oracle0 runningState0 .userEvent,
        (pt.willPoll = false ↔ pt.phase = .polling)) := by decide

/-- C5, amended: within a callback, `will_poll` is true from entry up to
the store right before the poll and false from there on — i.e. a sample
shows `will_poll = false` exactly at the `polling` and `returned` program
points; it is additionally false before the first callback
(`loopInit`). -/
theorem c5_aboutToPoll_phase (t : TaskOracle) (σ : LoopState) (e : WEvent)
    (pt : TracePoint) (h : pt ∈ stepTrace t σ e) :
    (pt.willPoll = false ↔ (pt.phase = .polling ∨ pt.phase = .returned)) ∧
    loopInit.willPoll = false := by
  refine ⟨?_, rfl⟩
  rcases stepTrace_shapes t σ e pt h with h1 | h1 | h1 | h1 | h1 <;>
    subst h1 <;> simp

/-- Witness for the amended C5 at a concrete sample. -/
theorem c5_aboutToPoll_phase_witness :
    ((⟨.polling, false, .wait⟩ : TracePoint).willPoll = false ↔
      ((⟨.polling, false, .wait⟩ : TracePoint).phase = .polling ∨
       (⟨.polling, false, .wait⟩ : TracePoint).phase = .returned)) ∧
    loopInit.willPoll = false :=
  c5_aboutToPoll_phase oracle0 runningState0 (.other 7)
    ⟨.polling, false, .wait⟩ (by decide)

/-- C9: the unwrap after `to_static` is *not* unreachable — a
`ScaleFactorChanged` window event is deliverable by the host loop, its
conversion to `'static` fails, and the driver's `unwrap` panics (the
source's own TODO at lib.rs 70–71 records the gap). -/
theorem c9_scale_factor_panics :
    toStatic .scaleFactorChanged = none ∧
    (runStep oracle0 runningState0 .scaleFactorChanged).panicked = true := by decide

/-- C10: every callback, in every non-panicked driver state including
`Done`, first writes `control_flow = Wait` and `will_poll = true` before
inspecting the state (the first sample always reads `(true, Wait)`), and
a callback arriving in `Done` — in particular one delivered after the
loop-exit request — does nothing but reset those two cells, overwriting
`Exit` with `Wait`. -/
theorem c10_preamble (t : TaskOracle) (σ : LoopState) (e : WEvent)
    (hp : σ.panicked = false) :
    (stepTrace t σ e).head? = some ⟨.received, true, .wait⟩ ∧
    (σ.state = .done →
      runStep t σ e = { σ with controlFlow := .wait, willPoll := true }) := by
  constructor
  · have hhead : ∀ (σ' : LoopState), σ'.panicked = false → σ'.state = .running →
        (stepTrace t σ' e).head? = some ⟨.received, true, .wait⟩ := by
      intro σ' hp' hs'
      rw [stepTrace, runStepT_running t σ' e hp' hs']
      by_cases hu : e = .userEvent
      · by_cases hr : t.ready σ'.polls = true <;> simp [hu, stepPoll, hr]
      · cases ht : toStatic e with
        | none => simp [hu, ht]
        | some e2 =>
          by_cases hc : σ'.chan.isClosed = true <;>
            by_cases hr : t.ready σ'.polls = true <;>
              simp [hu, ht, hc, hr, stepPoll]
    cases hd : σ.state with
    | done => rw [stepTrace, runStepT_done t σ e hp hd]; rfl
    | running => exact hhead σ hp hd
    | init =>
      rw [stepTrace, runStepT_init t σ e hp hd]
      exact hhead _ hp rfl
  · intro hd
    simp [runStep, runStepT_done t σ e hp hd]

/-- Witness for C10 at a `Done` state whose loop-exit request is pending. -/
theorem c10_preamble_witness :
    (stepTrace oracle0 doneState0 .userEvent).head? =
      some ⟨.received, true, .wait⟩ ∧
    (doneState0.state = .done →
      runStep oracle0 doneState0 .userEvent =
        { doneState0 with controlFlow := .wait, willPoll := true }) :=
  c10_preamble oracle0 doneState0 .userEvent rfl

/-- C6: a `wake()` arriving while `will_poll` is true returns with no side
effect at all: the shared state (injection count included) is unchanged and
the guard on the injection handle is never acquired (the returned flag is
`false`). -/
theorem c6_wake_coalesced (s : WakerState) (h : s.willPoll = true) :
    wakeByRef s = some (s, false) := by
  simp [wakeByRef, h]

/-- Witness for C6. -/
theorem c6_wake_coalesced_witness :
    wakeByRef ⟨true, false, false, false, 5⟩ =
      some (⟨true, false, false, false, 5⟩, false) :=
  c6_wake_coalesced ⟨true, false, false, false, 5⟩ rfl

/-- C7: when `wake()` reaches the `try_lock`: a guard already held by a
concurrent `wake()` makes the call return immediately with nothing sent and
the state untouched (`WouldBlock`); a free but poisoned guard makes the
call panic (`none`), surfacing the fatal error instead of continuing. -/
theorem c7_wake_try_lock (s1 s2 : WakerState)
    (h1 : s1.willPoll = false) (h2 : s1.lockHeld = true)
    (h3 : s2.willPoll = false) (h4 : s2.lockHeld = false)
    (h5 : s2.poisoned = true) :
    wakeByRef s1 = some (s1, false) ∧ wakeByRef s2 = none := by
  constructor <;> simp [wakeByRef, h1, h2, h3, h4, h5]

/-- Witness for C7. -/
theorem c7_wake_try_lock_witness :
    wakeByRef ⟨false, true, false, false, 2⟩ =
      some (⟨false, true, false, false, 2⟩, false) ∧
    wakeByRef ⟨false, false, true, false, 2⟩ = none :=
  c7_wake_try_lock ⟨false, true, false, false, 2⟩ ⟨false, false, true, false, 2⟩
    rfl rfl rfl rfl rfl

/-- C8: `try_send` on the unbounded channel never reports `full`; after the
consumer is dropped it is a silent no-op — it returns the `closed` result,
which the driver ignores, and leaves the channel unchanged — so the
driver's handling never aborts; the `full` result is the one the driver
treats as an unreachable contract violation and turns into an abort. -/
theorem c8_enqueue_contract (c : Channel) (e : WEvent) :
    (trySend c e).1 ≠ .full ∧
    handleTrySend (trySend c e).1 = some () ∧
    (c.isClosed = true → trySend c e = (.closed, c)) ∧
    handleTrySend .full = none := by
  by_cases h : c.isClosed = true <;> simp [trySend, handleTrySend, h]

/-- Witness for C8 at a channel whose consumer is gone. -/
theorem c8_enqueue_contract_witness :
    (trySend ⟨[.other 4], true⟩ .userEvent).1 ≠ .full ∧
    handleTrySend (trySend ⟨[.other 4], true⟩ .userEvent).1 = some () ∧
    trySend ⟨[.other 4], true⟩ .userEvent = (.closed, ⟨[.other 4], true⟩) ∧
    handleTrySend .full = none := by
  have h := c8_enqueue_contract ⟨[.other 4], true⟩ .userEvent
  exact ⟨h.1, h.2.1, h.2.2.1 rfl, h.2.2.2⟩

/-! ## Counting and indexing helpers for the concurrent-wake model -/

theorem countStat_pos (c : TStat) (l : List TStat) (h : c ∈ l) :
    1 ≤ countStat c l := by
  induction l with
  | nil => simp at h
  | cons x xs ih =>
    rcases List.mem_cons.mp h with h | h
    · subst h; simp [countStat]
    · have := ih h
      by_cases hx : x = c <;> simp [countStat, hx] <;> omega

theorem countStat_eq_zero (c : TStat) (l : List TStat) (h : c ∉ l) :
    countStat c l = 0 := by
  induction l with
  | nil => rfl
  | cons x xs ih =>
    rw [List.mem_cons] at h
    push_neg at h
    simp [countStat, Ne.symm h.1, ih h.2]

theorem countStat_le_length (c : TStat) (l : List TStat) :
    countStat c l ≤ l.length := by
  induction l with
  | nil => simp [countStat]
  | cons x xs ih => by_cases hx : x = c <;> simp [countStat, hx] <;> omega

theorem countStat_replicate_ne (c a : TStat) (n : Nat) (h : a ≠ c) :
    countStat c (List.replicate n a) = 0 := by
  induction n with
  | zero => rfl
  | succ k ih => simp [List.replicate_succ, countStat, h, ih]

/-- Replacing position `i` (currently `a`) by `b` moves one occurrence:
stated additively to stay in `Nat`. -/
theorem countStat_set (l : List TStat) (i : Nat) (a b c : TStat)
    (h : l[i]? = some a) :
    countStat c (l.set i b) + (if a = c then 1 else 0) =
      countStat c l + (if b = c then 1 else 0) := by
  induction l generalizing i with
  | nil => simp at h
  | cons x xs ih =>
    cases i with
    | zero =>
      simp only [List.getElem?_cons_zero] at h
      injection h with h
      subst h
      simp only [List.set, countStat]
      omega
    | succ j =>
      simp only [List.getElem?_cons_succ] at h
      simp only [List.set, countStat]
      have := ih j h
      omega

theorem get?_set_self (l : List TStat) (i : Nat) (a b : TStat)
    (h : l[i]? = some a) : (l.set i b)[i]? = some b := by
  induction l generalizing i with
  | nil => simp at h
  | cons x xs ih =>
    cases i with
    | zero => simp
    | succ j =>
      simp only [List.set_cons_succ, List.getElem?_cons_succ] at h ⊢
      exact ih j h

theorem get?_set_ne (l : List TStat) (i j : Nat) (b : TStat) (h : i ≠ j) :
    (l.set i b)[j]? = l[j]? := by
  induction l generalizing i j with
  | nil => rfl
  | cons x xs ih =>
    cases i with
    | zero =>
      cases j with
      | zero => exact absurd rfl h
      | succ j2 => simp
    | succ i2 =>
      cases j with
      | zero => simp
      | succ j2 =>
        simp only [List.set_cons_succ, List.getElem?_cons_succ]
        exact ih i2 j2 (fun hh => h (by rw [hh]))

theorem mem_of_get?_eq (l : List TStat) (i : Nat) (a : TStat)
    (h : l[i]? = some a) : a ∈ l := by
  induction l generalizing i with
  | nil => simp at h
  | cons x xs ih =>
    cases i with
    | zero =>
      simp only [List.getElem?_cons_zero] at h
      injection h with h
      subst h
      exact List.mem_cons_self x xs
    | succ j => exact List.mem_cons_of_mem x (ih j (by simpa using h))

theorem mem_set_cases (l : List TStat) (i : Nat) (a b : TStat)
    (h : a ∈ l.set i b) : a ∈ l ∨ a = b := by
  induction l generalizing i with
  | nil => simp [List.set] at h
  | cons x xs ih =>
    cases i with
    | zero =>
      rcases List.mem_cons.mp h with h | h
      · right; exact h
      · left; exact List.mem_cons_of_mem x h
    | succ j =>
      rcases List.mem_cons.mp h with h | h
      · left; exact h ▸ List.mem_cons_self x xs
      · rcases ih j h with h | h
        · left; exact List.mem_cons_of_mem x h
        · right; exact h

/-! ## Invariant of the concurrent-wake model -/

theorem WInv_wakeInit (n : Nat) : WInv (wakeInit n) := by
  refine ⟨rfl, rfl, ?_, ?_, ?_⟩
  · simp [wakeInit, countStat_replicate_ne]
  · intro j h
    simp [wakeInit] at h
  · intro h
    have := List.eq_of_mem_replicate h
    simp at this

theorem WInv_threadStep (g : WakeGState) (i : Nat) (h : WInv g) :
    WInv (threadStep g i) := by
  obtain ⟨hwp, hlc, hinj, hown, hnoop⟩ := h
  cases hg : g.stats[i]? with
  | none =>
    unfold threadStep
    rw [hg]
    exact ⟨hwp, hlc, hinj, hown, hnoop⟩
  | some st =>
    cases st with
    | atStart =>
      unfold threadStep
      rw [hg, hwp]
      simp only [Bool.false_eq_true, if_false]
      refine ⟨hwp, hlc, ?_, ?_, ?_⟩
      · simp only [setStat]
        have hsh := countStat_set g.stats i .atStart .atLock .sentHolding hg
        have hrs := countStat_set g.stats i .atStart .atLock .retSent hg
        simp at hsh hrs
        omega
      · intro j hj
        simp only [setStat] at hj ⊢
        obtain ⟨st', hst', hd⟩ := hown j hj
        have hij : i ≠ j := by
          intro hh
          rw [hh, hst'] at hg
          injection hg with hg
          subst hg
          rcases hd with hd | hd <;> exact TStat.noConfusion hd
        exact ⟨st', by rw [get?_set_ne g.stats i j .atLock hij]; exact hst', hd⟩
      · intro hmem
        simp only [setStat] at hmem ⊢
        rcases mem_set_cases g.stats i .retNoop .atLock hmem with hmem | hmem
        · have := hnoop hmem
          have hh := countStat_set g.stats i .atStart .atLock .holding hg
          have hsh := countStat_set g.stats i .atStart .atLock .sentHolding hg
          have hrs := countStat_set g.stats i .atStart .atLock .retSent hg
          simp at hh hsh hrs
          omega
        · exact TStat.noConfusion hmem
    | atLock =>
      cases ho : g.owner with
      | some j0 =>
        unfold threadStep
        rw [hg, ho]
        refine ⟨hwp, hlc, ?_, ?_, ?_⟩
        · simp only [setStat]
          have hsh := countStat_set g.stats i .atLock .retNoop .sentHolding hg
          have hrs := countStat_set g.stats i .atLock .retNoop .retSent hg
          simp at hsh hrs
          omega
        · intro j hj
          simp only [setStat] at hj ⊢
          obtain ⟨st', hst', hd⟩ := hown j hj
          have hij : i ≠ j := by
            intro hh
            rw [hh, hst'] at hg
            injection hg with hg
            subst hg
            rcases hd with hd | hd <;> exact TStat.noConfusion hd
          exact ⟨st', by rw [get?_set_ne g.stats i j .retNoop hij]; exact hst', hd⟩
        · intro _
          simp only [setStat]
          obtain ⟨st', hst', hd⟩ := hown j0 ho
          have hij : i ≠ j0 := by
            intro hh
            rw [hh, hst'] at hg
            injection hg with hg
            subst hg
            rcases hd with hd | hd <;> exact TStat.noConfusion hd
          have hmem' : st' ∈ g.stats.set i .retNoop := by
            refine mem_of_get?_eq _ j0 _ ?_
            rw [get?_set_ne g.stats i j0 .retNoop hij]
            exact hst'
          rcases hd with hd | hd <;> subst hd
          · have := countStat_pos _ _ hmem'
            omega
          · have := countStat_pos _ _ hmem'
            omega
      | none =>
        unfold threadStep
        rw [hg, ho]
        refine ⟨hwp, hlc, ?_, ?_, ?_⟩
        · simp only [setStat]
          have hsh := countStat_set g.stats i .atLock .holding .sentHolding hg
          have hrs := countStat_set g.stats i .atLock .holding .retSent hg
          simp at hsh hrs
          omega
        · intro j hj
          simp only [setStat] at hj ⊢
          injection hj with hj
          subst hj
          exact ⟨.holding, get?_set_self g.stats i .atLock .holding hg, Or.inl rfl⟩
        · intro _
          simp only [setStat]
          have hmem' : TStat.holding ∈ g.stats.set i .holding :=
            mem_of_get?_eq _ i _ (get?_set_self g.stats i .atLock .holding hg)
          have := countStat_pos .holding _ hmem'
          omega
    | holding =>
      unfold threadStep
      rw [hg, hlc]
      simp only [Bool.false_eq_true, if_false]
      have hh := countStat_set g.stats i .holding .sentHolding .holding hg
      have hsh := countStat_set g.stats i .holding .sentHolding .sentHolding hg
      have hrs := countStat_set g.stats i .holding .sentHolding .retSent hg
      simp at hh hsh hrs
      refine ⟨hwp, hlc, ?_, ?_, ?_⟩
      · simp only [setStat]
        omega
      · intro j hj
        simp only [setStat] at hj ⊢
        obtain ⟨st', hst', hd⟩ := hown j hj
        by_cases hij : i = j
        · subst hij
          exact ⟨.sentHolding,
            get?_set_self g.stats i .holding .sentHolding hg, Or.inr rfl⟩
        · exact ⟨st', by rw [get?_set_ne g.stats i j .sentHolding hij]; exact hst', hd⟩
      · intro hmem
        simp only [setStat] at hmem ⊢
        rcases mem_set_cases g.stats i .retNoop .sentHolding hmem with hmem | hmem
        · have := hnoop hmem
          omega
        · exact TStat.noConfusion hmem
    | sentHolding =>
      unfold threadStep
      rw [hg]
      have hh := countStat_set g.stats i .sentHolding .retSent .holding hg
      have hsh := countStat_set g.stats i .sentHolding .retSent .sentHolding hg
      have hrs := countStat_set g.stats i .sentHolding .retSent .retSent hg
      simp at hh hsh hrs
      refine ⟨hwp, hlc, ?_, ?_, ?_⟩
      · simp only [setStat]
        omega
      · intro j hj
        simp only [setStat] at hj
        exact Option.noConfusion hj
      · intro hmem
        simp only [setStat] at hmem ⊢
        rcases mem_set_cases g.stats i .retNoop .retSent hmem with hmem | hmem
        · have := hnoop hmem
          omega
        · exact TStat.noConfusion hmem
    | retNoop =>
      unfold threadStep
      rw [hg]
      exact ⟨hwp, hlc, hinj, hown, hnoop⟩
    | retSent =>
      unfold threadStep
      rw [hg]
      exact ⟨hwp, hlc, hinj, hown, hnoop⟩

theorem WInv_runSched (sched : List Nat) (g : WakeGState) (h : WInv g) :
    WInv (runSched sched g) := by
  induction sched generalizing g with
  | nil => exact h
  | cons i sched ih => exact ih (threadStep g i) (WInv_threadStep g i h)

theorem threadStep_length (g : WakeGState) (i : Nat) :
    (threadStep g i).stats.length = g.stats.length := by
  cases hg : g.stats[i]? with
  | none =>
    unfold threadStep
    rw [hg]
  | some st =>
    cases st with
    | atStart =>
      unfold threadStep
      rw [hg]
      by_cases hw : g.willPoll = true <;> simp [hw, setStat]
    | atLock =>
      unfold threadStep
      rw [hg]
      cases g.owner <;> simp [setStat]
    | holding =>
      unfold threadStep
      rw [hg]
      simp [setStat]
    | sentHolding =>
      unfold threadStep
      rw [hg]
      simp [setStat]
    | retNoop =>
      unfold threadStep
      rw [hg]
    | retSent =>
      unfold threadStep
      rw [hg]

theorem runSched_length (sched : List Nat) (g : WakeGState) :
    (runSched sched g).stats.length = g.stats.length := by
  induction sched generalizing g with
  | nil => rfl
  | cons i sched ih =>
    calc (runSched (i :: sched) g).stats.length
        = (runSched sched (threadStep g i)).stats.length := rfl
      _ = (threadStep g i).stats.length := ih (threadStep g i)
      _ = g.stats.length := threadStep_length g i

/-- C2: for any interleaving (schedule) under which `n ≥ 1` concurrent
`wake()` calls all run to completion while the loop thread is not about to
poll (`will_poll` stays false) and the loop is alive, at least 1 and at
most `n` synthetic wake events are injected into the host loop; and a
delivered wake marker makes a non-panicked `Running` driver poll the task
again — no wake request is lost and redundant signals are bounded by the
number of callers. -/
theorem c2_wake_concurrent (n : Nat) (sched : List Nat) (t : TaskOracle)
    (σ : LoopState) (hn : 0 < n)
    (hdone : allDone (runSched sched (wakeInit n)) = true)
    (hσ : σ.state = .running) (hp : σ.panicked = false) :
    (1 ≤ (runSched sched (wakeInit n)).injected ∧
     (runSched sched (wakeInit n)).injected ≤ n) ∧
    (runStep t σ .userEvent).polls = σ.polls + 1 := by
  refine ⟨?_, runStep_user_polls t σ hp hσ⟩
  have hinv : WInv (runSched sched (wakeInit n)) :=
    WInv_runSched sched _ (WInv_wakeInit n)
  have hlen : (runSched sched (wakeInit n)).stats.length = n := by
    rw [runSched_length]
    simp [wakeInit]
  set g := runSched sched (wakeInit n) with hgdef
  obtain ⟨hwp, hlc, hinj, hown, hnoop⟩ := hinv
  have hall : ∀ st ∈ g.stats, tdone st = true := by
    intro st hst
    exact List.all_eq_true.mp hdone st hst
  have hhold : countStat .holding g.stats = 0 := by
    apply countStat_eq_zero
    intro hmem
    have := hall _ hmem
    simp [tdone] at this
  have hsent : countStat .sentHolding g.stats = 0 := by
    apply countStat_eq_zero
    intro hmem
    have := hall _ hmem
    simp [tdone] at this
  have hupper : g.injected ≤ n := by
    have := countStat_le_length .retSent g.stats
    omega
  refine ⟨?_, hupper⟩
  by_cases hrn : TStat.retNoop ∈ g.stats
  · have := hnoop hrn
    omega
  · cases hstats : g.stats with
    | nil =>
      rw [hstats] at hlen
      simp at hlen
      omega
    | cons x xs =>
      have hx : tdone x = true := hall x (hstats ▸ List.mem_cons_self x xs)
      have hxn : x ≠ .retNoop := by
        intro hh
        exact hrn (hstats ▸ (hh ▸ List.mem_cons_self x xs))
      have hxs : x = .retSent := by
        cases x <;> simp [tdone] at hx hxn ⊢
      have hmem : TStat.retSent ∈ g.stats := by
        rw [hstats]
        exact hxs ▸ List.mem_cons_self x xs
      have := countStat_pos .retSent g.stats hmem
      omega

/-- Witness for C2: two concurrent wakes, the second hitting `WouldBlock`
while the first holds the proxy guard — one injection results. -/
theorem c2_wake_concurrent_witness :
    (1 ≤ (runSched [0, 0, 1, 1, 0, 0] (wakeInit 2)).injected ∧
     (runSched [0, 0, 1, 1, 0, 0] (wakeInit 2)).injected ≤ 2) ∧
    (runStep oracle0 runningState0 .userEvent).polls = runningState0.polls + 1 :=
  c2_wake_concurrent 2 [0, 0, 1, 1, 0, 0] oracle0 runningState0
    (by decide) (by decide) rfl rfl

end WinitAsync
